import Mathlib

/-!
Shallow embedding of the tag-selection state machine and the match
bucketing of the fairplay-reviews repository.

The selection state machine lives in `frontend/src/app/tags/page.tsx`
(`handleTagClick`, `clearSelection`, `searchGames`, `performSearch`, and
the result-rendering key sort). The bucketing engine itself is the
backend endpoint `/games/search/multi-tag`, which is not part of the
frontend sources; it is modelled from the specification (section 4.2).
-/

/-- A classification tag as loaded from the catalog (`interface Tag` in
`page.tsx`): unique numeric id, display name, presentational color. -/
structure Tag where
  id : Nat
  name : String
  color : String
deriving DecidableEq

/-- The three-valued per-tag selection state
(`type TagSelectionState = "none" | "include" | "exclude"`). -/
inductive TagSelectionState where
  | sNone
  | sInclude
  | sExclude
deriving DecidableEq

/-- A game record as consumed by the page (`interface Game` in `page.tsx`). -/
structure Game where
  id : Nat
  name : String
  cover_image : Option String
  release_date : Option String
  summary : Option String
  tags : List Tag
  matching_tags : Option Nat
  missing_tags : Option Nat
deriving DecidableEq

/-- The selection mapping: a JS `Map<number, TagSelectionState>` modelled as
an association list in insertion order. All reachable states have unique
keys; the operations below follow JS `Map` semantics on such states. -/
abbrev Selection := List (Nat × TagSelectionState)

/-- JS `Map.get`: the value at the first entry with the given key. -/
def Selection.get : Selection → Nat → Option TagSelectionState
  | [], _ => none
  | p :: ps, k => if p.1 = k then some p.2 else Selection.get ps k

/-- JS `Map.set`: replace the value at an existing key in place, else append
a new entry at the end. -/
def Selection.set : Selection → Nat → TagSelectionState → Selection
  | [], k, v => [(k, v)]
  | p :: ps, k, v => if p.1 = k then (k, v) :: ps else p :: Selection.set ps k v

/-- JS `Map.delete`: remove the entry with the given key. -/
def Selection.del : Selection → Nat → Selection
  | [], _ => []
  | p :: ps, k => if p.1 = k then Selection.del ps k else p :: Selection.del ps k

/-- The selection state the page attributes to a tag id: the stored state,
or `"none"` when no entry is stored (`newMap.get(tagId) || "none"`). -/
def effState (m : Selection) (tagId : Nat) : TagSelectionState :=
  (Selection.get m tagId).getD .sNone

/-- Embedding of `handleTagClick` (page.tsx lines 78-94): cycle the clicked
tag through none → include → exclude → none. The `"none"` branch sets
`include`, the `"include"` branch sets `exclude`, and the remaining branch
(`"exclude"`) deletes the entry. No vocabulary lookup is performed. -/
def handleTagClick (m : Selection) (tagId : Nat) : Selection :=
  match effState m tagId with
  | .sNone => Selection.set m tagId .sInclude
  | .sInclude => Selection.set m tagId .sExclude
  | .sExclude => Selection.del m tagId

/-- The included tag names derived in `searchGames` (page.tsx lines 130-139):
for each selection entry, look the id up in the loaded vocabulary; if found
and the state is `"include"`, push the tag name. Entries whose id has no
matching tag are skipped (`if (tag)`). -/
def deriveIncluded (allTags : List Tag) (sel : Selection) : List String :=
  sel.filterMap (fun p =>
    match allTags.find? (fun t => t.id == p.1) with
    | some t => if p.2 = .sInclude then some t.name else none
    | none => none)

/-- The excluded tag names derived in `searchGames`, symmetrical to
`deriveIncluded` for the `"exclude"` state. -/
def deriveExcluded (allTags : List Tag) (sel : Selection) : List String :=
  sel.filterMap (fun p =>
    match allTags.find? (fun t => t.id == p.1) with
    | some t => if p.2 = .sExclude then some t.name else none
    | none => none)

/-- Outcome of the `searchGames` validation step: either the no-included-tags
validation failure (the alert at line 142, after which the function returns
without calling `performSearch`), or a query issued with the derived lists. -/
inductive SearchOutcome where
  | noIncludedTags
  | issued (includedTags excludedTags : List String)
deriving DecidableEq

/-- Embedding of `searchGames` (page.tsx lines 129-147): derive the two name
lists, fail when `includedTags.length === 0`, otherwise issue the query. -/
def searchGames (allTags : List Tag) (sel : Selection) : SearchOutcome :=
  let includedTags := deriveIncluded allTags sel
  let excludedTags := deriveExcluded allTags sel
  if includedTags.length = 0 then .noIncludedTags
  else .issued includedTags excludedTags

/-- The component state of `BrowseTagsContent` relevant to the modelled
operations: the selection map, the bucketed results object, the expanded
sections set, the displayed required-tag count, and the searching flag. -/
structure PageState where
  selectedTags : Selection
  searchResults : List (Nat × List Game)
  expandedSections : List Nat
  totalRequiredTags : Nat
  searching : Bool
deriving DecidableEq

/-- Embedding of `clearSelection` (page.tsx lines 96-100): empty the
selection map, empty the results object, reset the expanded sections. -/
def clearSelection (s : PageState) : PageState :=
  { s with selectedTags := [], searchResults := [], expandedSections := [0] }

/-- The JSON body of a successful multi-tag search response as read by
`performSearch`: `data.results` and `data.total_required_tags`, either of
which may be absent (`|| {}` and `|| includedTags.length` fallbacks; note
that in JS the number `0` is falsy, hence the explicit zero case below). -/
structure SearchResponse where
  results : Option (List (Nat × List Game))
  total_required_tags : Option Nat
deriving DecidableEq

/-- Embedding of `performSearch` (page.tsx lines 102-127). The `response`
argument is `some data` when the fetch resolved with `response.ok`, and
`none` when the fetch threw or the response was not ok; in the latter case
the only state change is the `finally` reset of the searching flag. -/
def performSearch (s : PageState) (includedTags excludedTags : List String)
    (response : Option SearchResponse) : PageState :=
  match response with
  | none => { s with searching := false }
  | some data =>
    { s with
      searchResults := data.results.getD [],
      totalRequiredTags :=
        match data.total_required_tags with
        | some n => if n = 0 then includedTags.length else n
        | none => includedTags.length,
      expandedSections := [0],
      searching := false }

/-- The operations that may write the selection map: a tag click, the clear
button, and the URL pre-selection path (page.tsx lines 53-65, which builds
a fresh map holding the single pre-selected id in the include state). -/
inductive SelOp where
  | toggle (tagId : Nat)
  | clear
  | preseed (tagId : Nat)
deriving DecidableEq

/-- Apply one selection-writing operation to the selection map. -/
def applyOp (m : Selection) : SelOp → Selection
  | .toggle tagId => handleTagClick m tagId
  | .clear => []
  | .preseed tagId => Selection.set [] tagId .sInclude

/-- The selection reached from the initial empty map by a sequence of
operations. -/
def runOps (ops : List SelOp) : Selection :=
  List.foldl applyOp [] ops

/-- The order in which result buckets are rendered (page.tsx lines 262-265):
`Object.keys(searchResults).map(Number).sort((a, b) => a - b)`, i.e. the
numeric keys of the results object sorted ascending. -/
def renderOrder (results : List (Nat × List Game)) : List Nat :=
  List.insertionSort (fun a b => a ≤ b) (results.map Prod.fst)

/-- Modelled from the spec: an item (game) as seen by the bucketing engine —
identity plus the set of tag names attached to it (the backend
`/games/search/multi-tag` endpoint is not among the frontend sources). -/
structure Item where
  id : Nat
  tags : List String
deriving DecidableEq

/-- Modelled from the spec: `missingCount` for an item is
`|includeNames| − |includeNames ∩ item.tags|` (section 3). -/
def missingCount (includeNames : List String) (item : Item) : Nat :=
  includeNames.length - (includeNames.filter (fun n => item.tags.contains n)).length

/-- Modelled from the spec: the exclusion filter — an item is discarded when
its tag set intersects the excluded names (section 4.2, filtering step). -/
def survivesExclusion (excludeNames : List String) (item : Item) : Bool :=
  !(item.tags.any (fun t => excludeNames.contains t))

/-- Modelled from the spec: an item must match at least one included tag to
appear at all (section 4.2, ranking step). -/
def matchesSome (includeNames : List String) (item : Item) : Bool :=
  includeNames.any (fun n => item.tags.contains n)

/-- Modelled from the spec: the output of the bucketing engine — a mapping
from missing count to the items in that bucket, plus the required-tag
count (section 4.2). -/
structure MatchResult where
  results : List (Nat × List Item)
  totalRequiredTags : Nat
deriving DecidableEq

/-- Modelled from the spec: the bucket at a given missing count — surviving,
matching catalog items whose missing count equals the key, in catalog
order (a deterministic, stable secondary order). -/
def bucketFor (includeNames excludeNames : List String) (catalog : List Item)
    (k : Nat) : List Item :=
  catalog.filter (fun it =>
    survivesExclusion excludeNames it && matchesSome includeNames it &&
      missingCount includeNames it == k)

/-- Modelled from the spec: the Match Bucketing Engine
(`searchByTags` of section 6): filter by exclusion, drop zero-match items,
partition the rest into buckets keyed by missing count, keys ascending,
empty buckets omitted. -/
def searchByTags (includeNames excludeNames : List String)
    (catalog : List Item) : MatchResult :=
  { results := (List.range (includeNames.length + 1)).filterMap (fun k =>
      let b := bucketFor includeNames excludeNames catalog k
      if b.isEmpty then none else some (k, b)),
    totalRequiredTags := includeNames.length }

/-! Lemmas about the JS `Map` operations. -/

theorem Selection.get_set_self (m : Selection) (k : Nat) (v : TagSelectionState) :
    (m.set k v).get k = some v := by
  induction m with
  | nil => simp [Selection.set, Selection.get]
  | cons p ps ih =>
    by_cases h : p.1 = k
    · simp [Selection.set, Selection.get, h]
    · simp [Selection.set, Selection.get, h, ih]

theorem Selection.get_set_ne (m : Selection) (k k' : Nat) (v : TagSelectionState)
    (h : k' ≠ k) : (m.set k v).get k' = m.get k' := by
  induction m with
  | nil => simp [Selection.set, Selection.get, Ne.symm h]
  | cons p ps ih =>
    by_cases hp : p.1 = k
    · simp [Selection.set, Selection.get, hp, Ne.symm h]
    · simp [Selection.set, Selection.get, hp, ih]

theorem Selection.get_del_self (m : Selection) (k : Nat) :
    (m.del k).get k = none := by
  induction m with
  | nil => simp [Selection.del, Selection.get]
  | cons p ps ih =>
    by_cases h : p.1 = k
    · simp [Selection.del, Selection.get, h, ih]
    · simp [Selection.del, Selection.get, h, ih]

theorem Selection.get_del_ne (m : Selection) (k k' : Nat) (h : k' ≠ k) :
    (m.del k).get k' = m.get k' := by
  induction m with
  | nil => simp [Selection.del, Selection.get]
  | cons p ps ih =>
    by_cases hp : p.1 = k
    · simp [Selection.del, Selection.get, hp, Ne.symm h, ih]
    · simp [Selection.del, Selection.get, hp, ih]

theorem effState_toggle_self (m : Selection) (tagId : Nat) :
    effState (handleTagClick m tagId) tagId =
      (match effState m tagId with
       | .sNone => .sInclude
       | .sInclude => .sExclude
       | .sExclude => .sNone) := by
  cases h : effState m tagId <;>
    (simp only [handleTagClick]; rw [h];
     simp [effState, Selection.get_set_self, Selection.get_del_self])

theorem effState_toggle_other (m : Selection) (tagId other : Nat) (h : other ≠ tagId) :
    effState (handleTagClick m tagId) other = effState m other := by
  cases hs : effState m tagId <;>
    (simp only [handleTagClick]; rw [hs];
     simp [effState, Selection.get_set_ne _ _ _ _ h, Selection.get_del_ne _ _ _ h])

/-- C4: toggle cycles each tag in the fixed order none → include → exclude →
none, leaves every other tag untouched, and three consecutive toggles on the
same tag restore its observed state; in particular a tag in state none is
back at none after three toggles. -/
theorem toggle_cycle_spec (m : Selection) (tagId : Nat) :
    effState (handleTagClick m tagId) tagId =
      (match effState m tagId with
       | .sNone => .sInclude
       | .sInclude => .sExclude
       | .sExclude => .sNone) ∧
    (∀ other, other ≠ tagId →
      effState (handleTagClick m tagId) other = effState m other) ∧
    effState (handleTagClick (handleTagClick (handleTagClick m tagId) tagId) tagId) tagId
      = effState m tagId := by
  refine ⟨effState_toggle_self m tagId, fun other h => effState_toggle_other m tagId other h, ?_⟩
  cases h : effState m tagId <;> simp [effState_toggle_self, h]

/-- Witness for C4 at a concrete selection: toggling tag 2 leaves tag 1
untouched, and three toggles of tag 2 restore its state. -/
theorem toggle_cycle_spec_witness :
    ((1 : Nat) ≠ 2 ∧
      effState (handleTagClick [(1, .sInclude)] 2) 1 = effState [(1, .sInclude)] 1) ∧
    effState
        (handleTagClick (handleTagClick (handleTagClick [(1, .sInclude)] 2) 2) 2) 2
      = effState [(1, .sInclude)] 2 :=
  ⟨⟨by decide, (toggle_cycle_spec [(1, .sInclude)] 2).2.1 1 (by decide)⟩,
    (toggle_cycle_spec [(1, .sInclude)] 2).2.2⟩

/-- C2 counterexample: tag id 99 is not in the loaded vocabulary, yet
`handleTagClick` on id 99 changes the selection map — the toggle is not a
no-op on unknown ids, and no vocabulary check exists in the handler. -/
theorem toggle_unknown_not_noop_cex :
    (∀ t ∈ [Tag.mk 1 "Action" "green"], t.id ≠ 99) ∧
    handleTagClick [] 99 ≠ [] := by
  decide

/-- C2 amended: toggle never consults the vocabulary and always mutates the
selection; an id observed in state none (known or unknown) is stored as
include. No UnknownTag condition is reported anywhere. -/
theorem toggle_always_mutates (m : Selection) (tagId : Nat) :
    handleTagClick m tagId ≠ m ∧
    (effState m tagId = .sNone →
      (handleTagClick m tagId).get tagId = some .sInclude) := by
  constructor
  · have hget : (handleTagClick m tagId).get tagId ≠ m.get tagId := by
      cases hg : m.get tagId with
      | none =>
        have he : effState m tagId = .sNone := by simp [effState, hg]
        simp [handleTagClick, he, Selection.get_set_self]
      | some v =>
        have he : effState m tagId = v := by simp [effState, hg]
        cases v <;>
          simp [handleTagClick, he, hg, Selection.get_set_self, Selection.get_del_self]
    exact fun heq => hget (by rw [heq])
  · intro h
    simp [handleTagClick, h, Selection.get_set_self]

/-- Witness for C2's amended statement: id 7 with no stored entry is in state
none, and toggling stores it as include. -/
theorem toggle_always_mutates_witness :
    effState [] 7 = .sNone ∧ (handleTagClick [] 7).get 7 = some .sInclude :=
  ⟨by decide, (toggle_always_mutates [] 7).2 (by decide)⟩

/-- C6: after `clearSelection`, every tag's observed state is none, the
derived query sets are both empty, and the stored results object is empty,
whatever the state before the call. -/
theorem clear_resets_state (s : PageState) (allTags : List Tag) (tagId : Nat) :
    effState (clearSelection s).selectedTags tagId = .sNone ∧
    deriveIncluded allTags (clearSelection s).selectedTags = [] ∧
    deriveExcluded allTags (clearSelection s).selectedTags = [] ∧
    (clearSelection s).searchResults = [] := by
  refine ⟨?_, ?_, ?_, ?_⟩ <;>
    simp [clearSelection, effState, Selection.get, deriveIncluded, deriveExcluded]

/-- C7: when the catalog lookup fails (fetch rejected or response not ok),
`performSearch` leaves the stored results and required-tag count exactly as
they were before the call. -/
theorem failed_search_preserves_results (s : PageState)
    (includedTags excludedTags : List String) :
    (performSearch s includedTags excludedTags none).searchResults = s.searchResults ∧
    (performSearch s includedTags excludedTags none).totalRequiredTags
      = s.totalRequiredTags :=
  ⟨rfl, rfl⟩

/-- C3: `searchGames` fails with the no-included-tags validation exactly when
the derived included-name list is empty, and any issued query carries the
derived (hence non-empty) included list — so no query is issued on failure. -/
theorem search_no_included_validation (allTags : List Tag) (sel : Selection) :
    (searchGames allTags sel = .noIncludedTags ↔
      deriveIncluded allTags sel = []) ∧
    (∀ inc exc, searchGames allTags sel = .issued inc exc →
      inc = deriveIncluded allTags sel ∧ inc ≠ []) := by
  by_cases h : (deriveIncluded allTags sel).length = 0
  · constructor
    · simp [searchGames, h, List.length_eq_zero.mp h]
    · intro inc exc hx
      simp [searchGames, h] at hx
  · constructor
    · simp only [searchGames, h, if_false]
      constructor
      · intro hx; exact absurd hx (by simp)
      · intro he; exact absurd (by simp [he]) h
    · intro inc exc hx
      simp only [searchGames, h, if_false, SearchOutcome.issued.injEq] at hx
      refine ⟨hx.1.symm, fun hnil => h ?_⟩
      rw [hx.1, hnil]
      rfl

/-- Witness for C3 at a concrete vocabulary and selection: with one known
included tag the search is issued with that tag's name. -/
theorem search_no_included_validation_witness :
    searchGames [Tag.mk 1 "Action" "green"] [(1, .sInclude)] = .issued ["Action"] [] ∧
    ("Action" :: []) = deriveIncluded [Tag.mk 1 "Action" "green"] [(1, .sInclude)] ∧
    ("Action" :: []) ≠ [] :=
  ⟨by decide,
    (search_no_included_validation [Tag.mk 1 "Action" "green"] [(1, .sInclude)]).2
      ["Action"] [] (by decide)⟩

theorem filterMap_filter_of_none {α β : Type} (f : α → Option β) (q : α → Bool)
    (l : List α) (h : ∀ a, q a = false → f a = none) :
    (l.filter q).filterMap f = l.filterMap f := by
  induction l with
  | nil => rfl
  | cons a l ih =>
    cases hq : q a with
    | true => simp [List.filter_cons, hq, List.filterMap_cons, ih]
    | false => simp [List.filter_cons, hq, List.filterMap_cons, h a hq, ih]

/-- C10: selection entries whose id has no matching tag in the vocabulary
contribute to neither derived list (filtering them away changes nothing),
and if no entry with a known id is in the include state the search fails
with the no-included-tags validation, even if include entries exist. -/
theorem unknown_ids_contribute_nothing (allTags : List Tag) (sel : Selection) :
    deriveIncluded allTags
        (sel.filter (fun p => (allTags.find? (fun t => t.id == p.1)).isSome))
      = deriveIncluded allTags sel ∧
    deriveExcluded allTags
        (sel.filter (fun p => (allTags.find? (fun t => t.id == p.1)).isSome))
      = deriveExcluded allTags sel ∧
    ((∀ p ∈ sel, p.2 = .sInclude → allTags.find? (fun t => t.id == p.1) = none) →
      searchGames allTags sel = .noIncludedTags) := by
  refine ⟨?_, ?_, ?_⟩
  · apply filterMap_filter_of_none
    intro p hp
    have hn : allTags.find? (fun t => t.id == p.1) = none := by
      cases hfind : allTags.find? (fun t => t.id == p.1) with
      | none => rfl
      | some t => rw [hfind] at hp; simp at hp
    rw [hn]
  · apply filterMap_filter_of_none
    intro p hp
    have hn : allTags.find? (fun t => t.id == p.1) = none := by
      cases hfind : allTags.find? (fun t => t.id == p.1) with
      | none => rfl
      | some t => rw [hfind] at hp; simp at hp
    rw [hn]
  · intro hall
    have hnil : deriveIncluded allTags sel = [] := by
      rw [deriveIncluded, List.filterMap_eq_nil_iff]
      intro p hp
      cases hfind : allTags.find? (fun t => t.id == p.1) with
      | none => rfl
      | some t =>
        by_cases hs : p.2 = .sInclude
        · exact absurd hfind (by rw [hall p hp hs]; simp)
        · simp [hs]
    simp [searchGames, hnil]

/-- Witness for C10: a selection holding a single include entry for id 1,
with an empty vocabulary, fails the no-included-tags validation. -/
theorem unknown_ids_contribute_nothing_witness :
    ((1, TagSelectionState.sInclude) ∈ ([(1, TagSelectionState.sInclude)] : Selection)) ∧
    searchGames [] [(1, .sInclude)] = .noIncludedTags :=
  ⟨by decide,
    (unknown_ids_contribute_nothing [] [(1, .sInclude)]).2.2 (by decide)⟩

theorem Selection.mem_set (m : Selection) (k : Nat) (v : TagSelectionState)
    (p : Nat × TagSelectionState) (hp : p ∈ m.set k v) : p = (k, v) ∨ p ∈ m := by
  induction m with
  | nil => simp [Selection.set] at hp; exact Or.inl hp
  | cons q qs ih =>
    by_cases h : q.1 = k
    · simp only [Selection.set, if_pos h, List.mem_cons] at hp
      rcases hp with h1 | h1
      · exact Or.inl h1
      · exact Or.inr (List.mem_cons_of_mem _ h1)
    · simp only [Selection.set, if_neg h, List.mem_cons] at hp
      rcases hp with h1 | h1
      · exact Or.inr (h1 ▸ List.mem_cons_self q qs)
      · rcases ih h1 with h2 | h2
        · exact Or.inl h2
        · exact Or.inr (List.mem_cons_of_mem _ h2)

theorem Selection.mem_del (m : Selection) (k : Nat)
    (p : Nat × TagSelectionState) (hp : p ∈ m.del k) : p ∈ m := by
  induction m with
  | nil => simp [Selection.del] at hp
  | cons q qs ih =>
    by_cases h : q.1 = k
    · simp only [Selection.del, if_pos h] at hp
      exact List.mem_cons_of_mem _ (ih hp)
    · simp only [Selection.del, if_neg h, List.mem_cons] at hp
      rcases hp with h1 | h1
      · exact h1 ▸ List.mem_cons_self q qs
      · exact List.mem_cons_of_mem _ (ih h1)

theorem applyOp_no_none (m : Selection) (op : SelOp)
    (hm : ∀ p ∈ m, p.2 ≠ TagSelectionState.sNone) :
    ∀ p ∈ applyOp m op, p.2 ≠ TagSelectionState.sNone := by
  intro p hp
  cases op with
  | clear => simp [applyOp] at hp
  | preseed t =>
    simp [applyOp, Selection.set] at hp
    rw [hp]
    simp
  | toggle t =>
    simp only [applyOp] at hp
    unfold handleTagClick at hp
    cases hs : effState m t with
    | sNone =>
      rw [hs] at hp
      rcases Selection.mem_set m t _ p hp with h1 | h1
      · rw [h1]; simp
      · exact hm p h1
    | sInclude =>
      rw [hs] at hp
      rcases Selection.mem_set m t _ p hp with h1 | h1
      · rw [h1]; simp
      · exact hm p h1
    | sExclude =>
      rw [hs] at hp
      exact hm p (Selection.mem_del m t p hp)

theorem foldl_no_none (ops : List SelOp) (m : Selection)
    (hm : ∀ p ∈ m, p.2 ≠ TagSelectionState.sNone) :
    ∀ p ∈ List.foldl applyOp m ops, p.2 ≠ TagSelectionState.sNone := by
  induction ops generalizing m with
  | nil => simpa using hm
  | cons op ops ih =>
    intro p hp
    exact ih (applyOp m op) (applyOp_no_none m op hm) p hp

/-- C9: every entry stored in a selection reachable from the initial empty
map via toggles, clears, and URL pre-selection has value include or exclude;
the state none is represented only by absence of an entry. -/
theorem stored_state_never_none (ops : List SelOp) (p : Nat × TagSelectionState)
    (hp : p ∈ runOps ops) : p.2 ≠ TagSelectionState.sNone :=
  foldl_no_none ops [] (by simp) p hp

/-- Witness for C9: after one toggle of tag 1 the stored entry is
`(1, include)`, whose value is not none. -/
theorem stored_state_never_none_witness :
    ((1, TagSelectionState.sInclude) ∈ runOps [.toggle 1]) ∧
    ((1, TagSelectionState.sInclude) : Nat × TagSelectionState).2
      ≠ TagSelectionState.sNone :=
  ⟨by decide, stored_state_never_none [.toggle 1] (1, .sInclude) (by decide)⟩

theorem Selection.keys_set_subset (m : Selection) (k : Nat) (v : TagSelectionState)
    (j : Nat) (hj : j ∈ (m.set k v).map Prod.fst) : j = k ∨ j ∈ m.map Prod.fst := by
  rcases List.mem_map.mp hj with ⟨p, hp, hpj⟩
  rcases Selection.mem_set m k v p hp with h1 | h1
  · left; rw [← hpj, h1]
  · right; exact List.mem_map.mpr ⟨p, h1, hpj⟩

theorem Selection.keys_set_nodup (m : Selection) (k : Nat) (v : TagSelectionState)
    (h : (m.map Prod.fst).Nodup) : ((m.set k v).map Prod.fst).Nodup := by
  induction m with
  | nil => simp [Selection.set]
  | cons q qs ih =>
    simp only [List.map_cons, List.nodup_cons] at h
    by_cases hq : q.1 = k
    · subst hq
      have hset : Selection.set (q :: qs) q.1 v = (q.1, v) :: qs := by
        simp [Selection.set]
      rw [hset, List.map_cons, List.nodup_cons]
      exact ⟨h.1, h.2⟩
    · simp only [Selection.set, if_neg hq, List.map_cons, List.nodup_cons]
      refine ⟨fun hmem => ?_, ih h.2⟩
      rcases Selection.keys_set_subset qs k v q.1 hmem with h1 | h1
      · exact hq h1
      · exact h.1 h1

theorem Selection.del_sublist (m : Selection) (k : Nat) :
    List.Sublist (m.del k) m := by
  induction m with
  | nil => simp [Selection.del]
  | cons q qs ih =>
    by_cases hq : q.1 = k
    · simp only [Selection.del, if_pos hq]
      exact List.Sublist.cons q ih
    · simp only [Selection.del, if_neg hq]
      exact List.Sublist.cons₂ q ih

theorem Selection.keys_del_nodup (m : Selection) (k : Nat)
    (h : (m.map Prod.fst).Nodup) : ((m.del k).map Prod.fst).Nodup :=
  List.Nodup.sublist (List.Sublist.map Prod.fst (Selection.del_sublist m k)) h

theorem applyOp_keys_nodup (m : Selection) (op : SelOp)
    (h : (m.map Prod.fst).Nodup) : ((applyOp m op).map Prod.fst).Nodup := by
  cases op with
  | clear => simp [applyOp]
  | preseed t => simp [applyOp, Selection.set]
  | toggle t =>
    simp only [applyOp]
    unfold handleTagClick
    cases effState m t with
    | sNone => exact Selection.keys_set_nodup m t _ h
    | sInclude => exact Selection.keys_set_nodup m t _ h
    | sExclude => exact Selection.keys_del_nodup m t h

theorem foldl_keys_nodup (ops : List SelOp) (m : Selection)
    (h : (m.map Prod.fst).Nodup) :
    ((List.foldl applyOp m ops).map Prod.fst).Nodup := by
  induction ops generalizing m with
  | nil => simpa using h
  | cons op ops ih => exact ih (applyOp m op) (applyOp_keys_nodup m op h)

theorem runOps_keys_nodup (ops : List SelOp) :
    ((runOps ops).map Prod.fst).Nodup :=
  foldl_keys_nodup ops [] (by simp)

theorem of_mem_deriveIncluded (allTags : List Tag) (sel : Selection) (name : String)
    (h : name ∈ deriveIncluded allTags sel) :
    ∃ p ∈ sel, ∃ t ∈ allTags,
      t.id = p.1 ∧ p.2 = TagSelectionState.sInclude ∧ t.name = name := by
  rw [deriveIncluded, List.mem_filterMap] at h
  obtain ⟨p, hp, hf⟩ := h
  cases hfind : allTags.find? (fun t => t.id == p.1) with
  | none => rw [hfind] at hf; simp at hf
  | some t =>
    rw [hfind] at hf
    by_cases hs : p.2 = TagSelectionState.sInclude
    · simp [hs] at hf
      refine ⟨p, hp, t, List.mem_of_find?_eq_some hfind, ?_, hs, hf⟩
      have := List.find?_some hfind
      simpa using this
    · simp [hs] at hf

theorem of_mem_deriveExcluded (allTags : List Tag) (sel : Selection) (name : String)
    (h : name ∈ deriveExcluded allTags sel) :
    ∃ p ∈ sel, ∃ t ∈ allTags,
      t.id = p.1 ∧ p.2 = TagSelectionState.sExclude ∧ t.name = name := by
  rw [deriveExcluded, List.mem_filterMap] at h
  obtain ⟨p, hp, hf⟩ := h
  cases hfind : allTags.find? (fun t => t.id == p.1) with
  | none => rw [hfind] at hf; simp at hf
  | some t =>
    rw [hfind] at hf
    by_cases hs : p.2 = TagSelectionState.sExclude
    · simp [hs] at hf
      refine ⟨p, hp, t, List.mem_of_find?_eq_some hfind, ?_, hs, hf⟩
      have := List.find?_some hfind
      simpa using this
    · simp [hs] at hf

/-- C5: over any sequence of selection operations starting from the empty
map, and a vocabulary with pairwise distinct tag names, no name is ever in
both derived query lists at once. -/
theorem no_name_both_included_and_excluded (allTags : List Tag) (ops : List SelOp)
    (name : String) (hnames : (allTags.map Tag.name).Nodup) :
    ¬(name ∈ deriveIncluded allTags (runOps ops) ∧
      name ∈ deriveExcluded allTags (runOps ops)) := by
  rintro ⟨hin, hex⟩
  obtain ⟨p, hp, t, ht, hid, hsi, hn⟩ :=
    of_mem_deriveIncluded allTags (runOps ops) name hin
  obtain ⟨p', hp', t', ht', hid', hse, hn'⟩ :=
    of_mem_deriveExcluded allTags (runOps ops) name hex
  have htt : t = t' := List.inj_on_of_nodup_map hnames ht ht' (hn.trans hn'.symm)
  have hpp : p = p' :=
    List.inj_on_of_nodup_map (runOps_keys_nodup ops) hp hp' (by rw [← hid, ← hid', htt])
  rw [hpp] at hsi
  exact TagSelectionState.noConfusion (hsi.symm.trans hse)

/-- Witness for C5 at a concrete vocabulary and operation sequence. -/
theorem no_name_both_included_and_excluded_witness :
    (([Tag.mk 1 "Action" "green"].map Tag.name).Nodup) ∧
    ¬("Action" ∈ deriveIncluded [Tag.mk 1 "Action" "green"] (runOps [.toggle 1]) ∧
      "Action" ∈ deriveExcluded [Tag.mk 1 "Action" "green"] (runOps [.toggle 1])) :=
  ⟨by decide,
    no_name_both_included_and_excluded [Tag.mk 1 "Action" "green"] [.toggle 1]
      "Action" (by decide)⟩

/-- C8: for any results mapping with distinct numeric keys, the buckets are
rendered in strictly ascending missing-count order, and the rendered key
sequence is exactly a reordering of the mapping's keys. -/
theorem buckets_rendered_ascending (results : List (Nat × List Game))
    (h : (results.map Prod.fst).Nodup) :
    List.Sorted (· < ·) (renderOrder results) ∧
    List.Perm (renderOrder results) (results.map Prod.fst) := by
  have hperm : List.Perm (renderOrder results) (results.map Prod.fst) :=
    List.perm_insertionSort _ _
  refine ⟨?_, hperm⟩
  have hsorted : List.Sorted (fun a b => a ≤ b) (renderOrder results) :=
    List.sorted_insertionSort _ _
  have hnd : (renderOrder results).Nodup := hperm.symm.nodup h
  exact List.Sorted.lt_of_le hsorted hnd

/-- Witness for C8: a results object listing bucket 2 before bucket 0 is
rendered in ascending key order. -/
theorem buckets_rendered_ascending_witness :
    ((([(2, []), (0, [])] : List (Nat × List Game)).map Prod.fst).Nodup) ∧
    (List.Sorted (· < ·) (renderOrder [(2, []), (0, [])]) ∧
      List.Perm (renderOrder [(2, []), (0, [])])
        (([(2, []), (0, [])] : List (Nat × List Game)).map Prod.fst)) :=
  ⟨by decide, buckets_rendered_ascending [(2, []), (0, [])] (by decide)⟩

/-- C1: every item placed in a bucket of the match result sits under the key
equal to its missing count, and that key is strictly below the number of
included names — an item matching none of the included tags appears in no
bucket. -/
theorem bucketed_missing_count (I E : List String) (catalog : List Item)
    (k : Nat) (b : List Item) (item : Item)
    (hb : (k, b) ∈ (searchByTags I E catalog).results) (hi : item ∈ b) :
    k = missingCount I item ∧ k < I.length := by
  rw [searchByTags] at hb
  simp only [List.mem_filterMap] at hb
  obtain ⟨k', hk', heq⟩ := hb
  by_cases hemp : (bucketFor I E catalog k').isEmpty
  · rw [if_pos hemp] at heq
    exact absurd heq (by simp)
  · rw [if_neg hemp] at heq
    have hinj := Option.some.inj heq
    obtain ⟨rfl, hbb⟩ : k' = k ∧ bucketFor I E catalog k' = b :=
      ⟨congrArg Prod.fst hinj, congrArg Prod.snd hinj⟩
    rw [← hbb] at hi
    rw [bucketFor, List.mem_filter] at hi
    obtain ⟨hcat, hcond⟩ := hi
    simp only [Bool.and_eq_true, beq_iff_eq] at hcond
    obtain ⟨⟨hsurv, hmatch⟩, hmc⟩ := hcond
    refine ⟨hmc.symm, ?_⟩
    have hpos : 1 ≤ (I.filter (fun n => item.tags.contains n)).length := by
      simp only [matchesSome, List.any_eq_true] at hmatch
      obtain ⟨n, hn, hcont⟩ := hmatch
      have hmemf : n ∈ I.filter (fun n => item.tags.contains n) :=
        List.mem_filter.mpr ⟨hn, hcont⟩
      have := List.length_pos.mpr (List.ne_nil_of_mem hmemf)
      omega
    have hle : (I.filter (fun n => item.tags.contains n)).length ≤ I.length :=
      List.length_filter_le _ _
    have hmc' : I.length - (I.filter (fun n => item.tags.contains n)).length
        = missingCount I item := rfl
    omega

/-- Witness for C1: with one included name and a single perfectly matching
item, that item sits in bucket 0 and the bound holds. -/
theorem bucketed_missing_count_witness :
    ((0, [Item.mk 1 ["A"]]) ∈ (searchByTags ["A"] [] [Item.mk 1 ["A"]]).results) ∧
    (Item.mk 1 ["A"] ∈ [Item.mk 1 ["A"]]) ∧
    (0 = missingCount ["A"] (Item.mk 1 ["A"]) ∧ 0 < (["A"] : List String).length) :=
  ⟨by decide, by decide,
    bucketed_missing_count ["A"] [] [Item.mk 1 ["A"]] 0 [Item.mk 1 ["A"]]
      (Item.mk 1 ["A"]) (by decide) (by decide)⟩
